import Mathlib

/-!
Verification of the PrimeKit SFI (square-free-integer) encoding and
filtering engine, shallowly embedded from the C++ sources
(`primekit.cpp`, the JSON-loading single-tier variant, and the older
two-tier variant).  Machine integers are modelled as `Nat` with the
explicit bound `UINT64_MAX`; each C++ overflow guard is translated
verbatim, so no wrap-around can occur in the model, mirroring the
guarded source.
-/

set_option autoImplicit false

namespace PrimeRetail

/-- `2^64 - 1`, the C++ `UINT64_MAX` used in every overflow guard. -/
def UINT64_MAX : Nat := 2 ^ 64 - 1

/-- Parsed JSON values, as produced by `nlohmann::json::parse`.
`numU` is a number for which `is_number_unsigned()` holds, `numI` a
signed (negative) integer, `numF` a floating-point number (its value is
irrelevant to the engine, which only reads unsigned numbers).  Object
fields are listed in iteration order; the parser yields unique keys. -/
inductive Json where
  | null
  | bool (b : Bool)
  | numU (n : Nat)
  | numI (i : Int)
  | numF
  | str (s : String)
  | arr (elems : List Json)
  | obj (fields : List (String × Json))

/-- First-match association-list lookup, modelling `map::find` /
`map::count` / `map::at` on the C++ string-keyed maps. -/
def alookup {β : Type} : List (String × β) → String → Option β
  | [], _ => none
  | (k, v) :: rest, key => if k = key then some v else alookup rest key

/-- Inner prime map: attribute value → prime (`AttributeValueMap`). -/
abbrev PrimeValueMap : Type := List (String × Nat)

/-- `attribute_prime_map`: attribute key → value → prime
(`PrimeDictionary`). -/
abbrev PrimeMap : Type := List (String × PrimeValueMap)

/-- The inner loop of `initializePrimesFromJson` over one attribute's
value → prime object: an entry is stored only when the JSON number is
unsigned (`is_number_unsigned`) and strictly greater than 1; other
entries are dropped with a warning. -/
def parsePrimeEntries : List (String × Json) → PrimeValueMap
  | [] => []
  | (vk, Json.numU p) :: rest =>
      if 1 < p then (vk, p) :: parsePrimeEntries rest else parsePrimeEntries rest
  | (_, _) :: rest => parsePrimeEntries rest

/-- The outer loop of `initializePrimesFromJson` over the
`attribute_to_prime` object: a non-object value map is skipped with a
warning; an attribute key appears in `attribute_prime_map` only if at
least one of its entries was stored (the C++ `operator[]` creates the
inner map on the first store). -/
def parsePrimeAttrs : List (String × Json) → PrimeMap
  | [] => []
  | (ak, Json.obj vals) :: rest =>
      match parsePrimeEntries vals with
      | [] => parsePrimeAttrs rest
      | pvm => (ak, pvm) :: parsePrimeAttrs rest
  | (_, _) :: rest => parsePrimeAttrs rest

/-- `PrimeKit::initializePrimesFromJson`.  `none` models a string that
fails `json::parse` (the parse error is rethrown).  A missing
`attribute_to_prime` section (including a non-object top level, on
which `contains` is false) throws; a present section that is not an
object only logs an error and leaves the map empty. -/
def initializePrimesFromJson : Option Json → Except String PrimeMap
  | none => Except.error "Failed to parse primes JSON."
  | some (Json.obj fields) =>
      match alookup fields "attribute_to_prime" with
      | some (Json.obj attrs) => Except.ok (parsePrimeAttrs attrs)
      | some _ => Except.ok []
      | none => Except.error "Invalid primes JSON format: missing attribute_to_prime section."
  | some _ => Except.error "Invalid primes JSON format: missing attribute_to_prime section."

/-- Processed SKU data: record id and its single SFI (`SkuData`). -/
structure SkuData where
  id : String
  sfi : Nat
deriving DecidableEq, Repr

/-- One filter result row (`FilterResult`). -/
structure FilterResult where
  id : String
  sfi : Nat
deriving DecidableEq, Repr

/-- The value loop of `initializeFromJson` over one attribute's array:
non-string elements are ignored; a string with a prime in the map is
checked with `prime > 0 && current_sfi > UINT64_MAX / prime` — on
overflow the item is abandoned (`goto next_item`, modelled by
`Except.error`) — and multiplied in when `prime > 1`. -/
def encodeVals (pvm : PrimeValueMap) : Nat → List Json → Except Unit Nat
  | sfi, [] => Except.ok sfi
  | sfi, Json.str s :: rest =>
      match alookup pvm s with
      | some prime =>
          if 0 < prime ∧ UINT64_MAX / prime < sfi then Except.error ()
          else if 1 < prime then encodeVals pvm (sfi * prime) rest
          else encodeVals pvm sfi rest
      | none => encodeVals pvm sfi rest
  | sfi, _ :: rest => encodeVals pvm sfi rest

/-- The attribute loop of `initializeFromJson` over one record's
`attributes` object: the `brand` key is skipped, keys absent from
`attribute_prime_map` are skipped, non-array values are ignored, and
an overflow inside `encodeVals` abandons the whole item. -/
def encodeAttrs (pm : PrimeMap) : Nat → List (String × Json) → Except Unit Nat
  | sfi, [] => Except.ok sfi
  | sfi, (k, v) :: rest =>
      if k = "brand" then encodeAttrs pm sfi rest
      else
        match alookup pm k with
        | none => encodeAttrs pm sfi rest
        | some pvm =>
            match v with
            | Json.arr vs =>
                match encodeVals pvm sfi vs with
                | Except.ok sfi2 => encodeAttrs pm sfi2 rest
                | Except.error e => Except.error e
            | _ => encodeAttrs pm sfi rest

/-- What the `initializeFromJson` loop body does with one inventory
item: `skip` = malformed (not an object, or missing `id` /
`attributes`), logged and skipped; `fail` = `item["id"]` is present but
not a string, so `get<std::string>` throws and the whole load aborts;
`drop` = SFI overflow, `goto next_item` jumps past `push_back`, so the
record is never stored; `keep s` = the record is appended. -/
inductive ItemOutcome where
  | skip
  | fail
  | drop
  | keep (s : SkuData)
deriving DecidableEq, Repr

/-- Classifies one item exactly as the loop body of
`PrimeKit::initializeFromJson` does.  A non-object `attributes` value
is ignored and the record is stored with its initial SFI of 1. -/
def itemOutcome (pm : PrimeMap) (item : Json) : ItemOutcome :=
  match item with
  | Json.obj fields =>
      match alookup fields "id", alookup fields "attributes" with
      | some idv, some attrsv =>
          match idv with
          | Json.str i =>
              match attrsv with
              | Json.obj attrs =>
                  match encodeAttrs pm 1 attrs with
                  | Except.ok sfi => ItemOutcome.keep ⟨i, sfi⟩
                  | Except.error _ => ItemOutcome.drop
              | _ => ItemOutcome.keep ⟨i, 1⟩
          | _ => ItemOutcome.fail
      | _, _ => ItemOutcome.skip
  | _ => ItemOutcome.skip

/-- Final state of `internal_sku_data_` after a load, plus the error
(if any) that the call raised. -/
structure LoadResult where
  store : List SkuData
  error : Option String
deriving DecidableEq, Repr

/-- The item loop of `initializeFromJson`: records accumulate in
order; a thrown `get<std::string>` is rethrown as a generic processing
error, leaving the records pushed so far in `internal_sku_data_`. -/
def loadLoop (pm : PrimeMap) : List Json → List SkuData → LoadResult
  | [], acc => ⟨acc, none⟩
  | item :: rest, acc =>
      match itemOutcome pm item with
      | ItemOutcome.keep s => loadLoop pm rest (acc ++ [s])
      | ItemOutcome.skip => loadLoop pm rest acc
      | ItemOutcome.drop => loadLoop pm rest acc
      | ItemOutcome.fail => ⟨acc, some "Error processing inventory."⟩

/-- `PrimeKit::initializeFromJson`.  The store is cleared on entry, so
a parse failure (`none`) or a non-array document leaves it empty and
rethrows. -/
def initializeFromJson (pm : PrimeMap) : Option Json → LoadResult
  | none => ⟨[], some "Failed to parse inventory JSON."⟩
  | some (Json.arr items) => loadLoop pm items []
  | some _ => ⟨[], some "Error processing inventory."⟩

/-- Projection used when pushing a match (`{item.id, item.sfi}`). -/
def toResult (s : SkuData) : FilterResult := ⟨s.id, s.sfi⟩

/-- `PrimeKit::perform_filter` (single-tier variant): query 0 returns
an empty result, query 1 returns every record, otherwise the guarded
divisibility scan runs in store order. -/
def perform_filter (store : List SkuData) (query_sfi : Nat) : List FilterResult :=
  if query_sfi = 0 then []
  else if query_sfi = 1 then store.map toResult
  else (store.filter fun s => s.sfi != 0 && s.sfi % query_sfi == 0).map toResult

/-- SKU data of the older two-tier variant (`SkuData` with
`master_sfi` and `local_sfi`). -/
structure SkuData2 where
  sku_id : String
  master_sfi : Nat
  local_sfi : Nat
deriving DecidableEq, Repr

/-- `PrimeKit::perform_filter` (two-tier variant): zero queries are
normalized to 1; records whose tier SFI is the sentinel 1 are skipped
for a non-wildcard query on that tier; otherwise both tiers must
divide. -/
def perform_filter2 (store : List SkuData2) (master_query local_query : Nat) : List String :=
  let mq := if master_query = 0 then 1 else master_query
  let lq := if local_query = 0 then 1 else local_query
  store.filterMap fun sku =>
    if sku.master_sfi = 1 ∧ mq ≠ 1 then none
    else if sku.local_sfi = 1 ∧ lq ≠ 1 then none
    else if (mq = 1 ∨ sku.master_sfi % mq = 0) ∧ (lq = 1 ∨ sku.local_sfi % lq = 0)
    then some sku.sku_id else none

/-- `PrimeKit::get_prime`: the stored prime when present and greater
than 1, otherwise the multiplicative identity 1. -/
def get_prime (dict : PrimeMap) (key value : String) : Nat :=
  match alookup dict key with
  | some vm =>
      match alookup vm value with
      | some p => if 1 < p then p else 1
      | none => 1
  | none => 1

/-- The value loop of the standalone `PrimeKit::encode_sfi`: for each
value of a multi-valued attribute, look up its prime via `get_prime`;
when the prime exceeds 1, guard `sfi > max_val / prime` (overflow
aborts the whole encoding) and multiply. -/
def encodeSfiVals (dict : PrimeMap) (key : String) : Nat → List String → Except Unit Nat
  | sfi, [] => Except.ok sfi
  | sfi, v :: vs =>
      let prime := get_prime dict key v
      if 1 < prime then
        if UINT64_MAX / prime < sfi then Except.error ()
        else encodeSfiVals dict key (sfi * prime) vs
      else encodeSfiVals dict key sfi vs

/-- The key loop of `PrimeKit::encode_sfi` over `relevant_keys`. -/
def encodeSfiKeys (dict : PrimeMap) (attributes : List (String × List String)) :
    Nat → List String → Except Unit Nat
  | sfi, [] => Except.ok sfi
  | sfi, key :: rest =>
      match alookup attributes key with
      | some values =>
          match encodeSfiVals dict key sfi values with
          | Except.ok sfi2 => encodeSfiKeys dict attributes sfi2 rest
          | Except.error e => Except.error e
      | none => encodeSfiKeys dict attributes sfi rest

/-- `PrimeKit::encode_sfi`: accumulator starts at 1; on overflow the
function returns 1 to signal an invalid SFI. -/
def encode_sfi (attributes : List (String × List String)) (relevant_keys : List String)
    (prime_dict : PrimeMap) : Nat :=
  match encodeSfiKeys prime_dict attributes 1 relevant_keys with
  | Except.ok sfi => sfi
  | Except.error _ => 1

/-- Comparison definition following the claim wording for the zero
guard: `perform_filter` with the `item.sfi != 0` test removed from the
scan. -/
def perform_filter_unguarded (store : List SkuData) (query_sfi : Nat) : List FilterResult :=
  if query_sfi = 0 then []
  else if query_sfi = 1 then store.map toResult
  else (store.filter fun s => s.sfi % query_sfi == 0).map toResult

/-- A well-formed inventory item: string id plus attributes object. -/
def mkItem (i : String) (attrs : List (String × Json)) : Json :=
  Json.obj [("id", Json.str i), ("attributes", Json.obj attrs)]

/-- Prime map assigning the value `a` of key `k` the prime-like factor
`2^32`; multiplying it in twice overflows 64 bits. -/
def pmOvf : PrimeMap := [("k", [("a", 2 ^ 32)])]

/-- The one inventory item whose SFI computation overflows. -/
def invOvfItems : List Json := [mkItem "X" [("k", Json.arr [Json.str "a", Json.str "a"])]]

/-- Inventory with a single record whose SFI computation overflows. -/
def invOvf : Json := Json.arr invOvfItems

/-- The attributes of the overflowing record, and of a small normal
record used to instantiate theorems. -/
def attrsOvf : List (String × Json) := [("k", Json.arr [Json.str "a", Json.str "a"])]

/-- `ItemAttributes` triggering overflow in the standalone `encode_sfi`. -/
def attrsSfiOvf : List (String × List String) := [("k", ["a", "a"])]

/-- Prime map of the worked example in the design document:
`color → {red: 2, blue: 3}`, `size → {S: 5, M: 7}`. -/
def pmDemo : PrimeMap := [("color", [("red", 2), ("blue", 3)]), ("size", [("S", 5), ("M", 7)])]

/-- Two-record demo inventory: `A = {color:[red], size:[S]}` and
`B = {color:[blue], size:[M]}`. -/
def invDemoItems : List Json :=
  [mkItem "A" [("color", Json.arr [Json.str "red"]), ("size", Json.arr [Json.str "S"])],
   mkItem "B" [("color", Json.arr [Json.str "blue"]), ("size", Json.arr [Json.str "M"])]]

/-- The demo inventory as the parsed top-level JSON array. -/
def invDemo : Json := Json.arr invDemoItems

/-- Inventory whose first record is valid and whose second has a
numeric `id`, making `get<std::string>` throw mid-scan. -/
def invBadIdItems : List Json :=
  [mkItem "a" [],
   Json.obj [("id", Json.numU 42), ("attributes", Json.obj [])]]

/-- The bad-id inventory as the parsed top-level JSON array. -/
def invBadId : Json := Json.arr invBadIdItems

/-- Prime map giving value `v` of key `k` the prime 2. -/
def pmSingle : PrimeMap := [("k", [("v", 2)])]

/-- Record whose attribute `k` is the single string `"v"`. -/
def itemStr : Json := mkItem "A" [("k", Json.str "v")]

/-- Record whose attribute `k` is the one-element array `["v"]`. -/
def itemArr : Json := mkItem "A" [("k", Json.arr [Json.str "v"])]

/-- Value → prime entries for `color`, mixing valid entries with ones
that must be dropped (a 1, a negative number, a string). -/
def primesColorVals : List (String × Json) :=
  [("red", Json.numU 2), ("bad", Json.numU 1), ("neg", Json.numI (-3)),
   ("txt", Json.str "7"), ("blue", Json.numU 3)]

/-- The `attribute_to_prime` section of the demo primes document. -/
def primesAttrs : List (String × Json) := [("color", Json.obj primesColorVals)]

/-- Top-level fields of the demo primes document. -/
def primesFields : List (String × Json) := [("attribute_to_prime", Json.obj primesAttrs)]

/-- A primes document whose `attribute_to_prime` section mixes valid
entries with ones that must be dropped. -/
def primesDoc : Json := Json.obj primesFields

/-! ## Invariant lemmas about the encoder and the record store -/

/-- The value loop keeps the accumulator in `[1, UINT64_MAX]`: the
guard rejects any multiplication that would leave the range. -/
lemma encodeVals_ok_bounds (pvm : PrimeValueMap) :
    ∀ (vs : List Json) (sfi sfi' : Nat), 1 ≤ sfi → sfi ≤ UINT64_MAX →
      encodeVals pvm sfi vs = Except.ok sfi' → 1 ≤ sfi' ∧ sfi' ≤ UINT64_MAX := by
  intro vs
  induction vs with
  | nil =>
      intro sfi sfi' h1 h2 h
      simp only [encodeVals, Except.ok.injEq] at h
      omega
  | cons v rest ih =>
      intro sfi sfi' h1 h2 h
      cases v
      case str s =>
        simp only [encodeVals] at h
        split at h
        next prime heq =>
          split at h
          next hov => cases h
          next hov =>
            split at h
            next hp =>
              have hple : sfi ≤ UINT64_MAX / prime := by
                rcases Nat.lt_or_ge (UINT64_MAX / prime) sfi with hlt | hge
                · exact absurd ⟨by omega, hlt⟩ hov
                · exact hge
              have hmul : sfi * prime ≤ UINT64_MAX :=
                le_trans (Nat.mul_le_mul_right _ hple) (Nat.div_mul_le_self _ _)
              exact ih _ _ (Nat.one_le_iff_ne_zero.mpr
                (Nat.mul_ne_zero (by omega) (by omega))) hmul h
            next hp => exact ih _ _ h1 h2 h
        next heq => exact ih _ _ h1 h2 h
      all_goals exact ih _ _ h1 h2 (by simpa [encodeVals] using h)

/-- The attribute loop keeps the accumulator in `[1, UINT64_MAX]`. -/
lemma encodeAttrs_ok_bounds (pm : PrimeMap) :
    ∀ (l : List (String × Json)) (sfi sfi' : Nat), 1 ≤ sfi → sfi ≤ UINT64_MAX →
      encodeAttrs pm sfi l = Except.ok sfi' → 1 ≤ sfi' ∧ sfi' ≤ UINT64_MAX := by
  intro l
  induction l with
  | nil =>
      intro sfi sfi' h1 h2 h
      simp only [encodeAttrs, Except.ok.injEq] at h
      omega
  | cons kv rest ih =>
      intro sfi sfi' h1 h2 h
      obtain ⟨k, v⟩ := kv
      simp only [encodeAttrs] at h
      split at h
      · exact ih _ _ h1 h2 h
      · split at h
        next heq => exact ih _ _ h1 h2 h
        next pvm heq =>
          split at h
          next vs =>
            split at h
            next sfi2 hev =>
              obtain ⟨g1, g2⟩ := encodeVals_ok_bounds pvm vs sfi sfi2 h1 h2 hev
              exact ih _ _ g1 g2 h
            next e hev => cases h
          all_goals exact ih _ _ h1 h2 h

/-- A record is kept only with an SFI in `[1, UINT64_MAX]`. -/
lemma itemOutcome_keep_bounds (pm : PrimeMap) (item : Json) (s : SkuData)
    (h : itemOutcome pm item = ItemOutcome.keep s) : 1 ≤ s.sfi ∧ s.sfi ≤ UINT64_MAX := by
  have hmax : 1 ≤ UINT64_MAX := by norm_num [UINT64_MAX]
  cases item
  case obj fields =>
    simp only [itemOutcome] at h
    split at h
    all_goals try exact ItemOutcome.noConfusion h
    split at h
    all_goals try exact ItemOutcome.noConfusion h
    split at h
    all_goals try (injection h with hinj; subst hinj; exact ⟨le_refl 1, hmax⟩)
    split at h
    all_goals try exact ItemOutcome.noConfusion h
    next sfi2 henc =>
      injection h with hinj
      subst hinj
      exact encodeAttrs_ok_bounds pm _ 1 sfi2 (le_refl 1) hmax henc
  all_goals exact (by simp [itemOutcome] at h)

/-- Provenance of the record store: every stored record was in the
accumulator already or is the `keep` outcome of some input item. -/
lemma loadLoop_store_mem (pm : PrimeMap) :
    ∀ (items : List Json) (acc : List SkuData) (s : SkuData),
      s ∈ (loadLoop pm items acc).store →
      s ∈ acc ∨ ∃ item, item ∈ items ∧ itemOutcome pm item = ItemOutcome.keep s := by
  intro items
  induction items with
  | nil =>
      intro acc s h
      simp only [loadLoop] at h
      exact Or.inl h
  | cons item rest ih =>
      intro acc s h
      simp only [loadLoop] at h
      cases ho : itemOutcome pm item <;> rw [ho] at h
      case keep s2 =>
        rcases ih _ _ h with hacc | ⟨it, hin, hk⟩
        · rcases List.mem_append.mp hacc with hmem | hmem
          · exact Or.inl hmem
          · refine Or.inr ⟨item, List.mem_cons_self _ _, ?_⟩
            rw [ho, List.mem_singleton.mp hmem]
        · exact Or.inr ⟨it, List.mem_cons_of_mem _ hin, hk⟩
      case skip =>
        rcases ih _ _ h with hacc | ⟨it, hin, hk⟩
        · exact Or.inl hacc
        · exact Or.inr ⟨it, List.mem_cons_of_mem _ hin, hk⟩
      case drop =>
        rcases ih _ _ h with hacc | ⟨it, hin, hk⟩
        · exact Or.inl hacc
        · exact Or.inr ⟨it, List.mem_cons_of_mem _ hin, hk⟩
      case fail => exact Or.inl h

/-- Every record left in the store by a load is the `keep` outcome of
one of the input items. -/
lemma initializeFromJson_store_mem (pm : PrimeMap) (items : List Json) (s : SkuData)
    (h : s ∈ (initializeFromJson pm (some (Json.arr items))).store) :
    ∃ item, item ∈ items ∧ itemOutcome pm item = ItemOutcome.keep s := by
  have := loadLoop_store_mem pm items [] s h
  simpa using this

/-- Every record stored by any load call has SFI in `[1, UINT64_MAX]`. -/
lemma initializeFromJson_store_bounds (pm : PrimeMap) (inp : Option Json) (s : SkuData)
    (h : s ∈ (initializeFromJson pm inp).store) : 1 ≤ s.sfi ∧ s.sfi ≤ UINT64_MAX := by
  cases inp with
  | none => simp [initializeFromJson] at h
  | some j =>
      cases j
      case arr items =>
        obtain ⟨item, _, hk⟩ := initializeFromJson_store_mem pm items s h
        exact itemOutcome_keep_bounds pm item s hk
      all_goals simp [initializeFromJson] at h

/-- Every filter result row is the projection of a stored record. -/
lemma mem_perform_filter (store : List SkuData) (q : Nat) (r : FilterResult)
    (h : r ∈ perform_filter store q) : ∃ s, s ∈ store ∧ toResult s = r := by
  unfold perform_filter at h
  by_cases h0 : q = 0
  · rw [if_pos h0] at h; cases h
  · rw [if_neg h0] at h
    by_cases h1 : q = 1
    · rw [if_pos h1] at h
      obtain ⟨s, hs, hr⟩ := List.mem_map.mp h
      exact ⟨s, hs, hr⟩
    · rw [if_neg h1] at h
      obtain ⟨s, hs, hr⟩ := List.mem_map.mp h
      exact ⟨s, (List.mem_filter.mp hs).1, hr⟩

/-- An attribute entry that the loop skips — the `brand` key, a key
with no prime map, or a non-array value — leaves the encoding of the
remaining entries unchanged. -/
lemma encodeAttrs_cons_skip (pm : PrimeMap) (k : String) (v : Json)
    (hskip : k = "brand" ∨ alookup pm k = none ∨ ∀ vs, v ≠ Json.arr vs)
    (sfi : Nat) (rest : List (String × Json)) :
    encodeAttrs pm sfi ((k, v) :: rest) = encodeAttrs pm sfi rest := by
  simp only [encodeAttrs]
  by_cases hb : k = "brand"
  · rw [if_pos hb]
  · rw [if_neg hb]
    rcases hskip with hb2 | hn | hv
    · exact absurd hb2 hb
    · rw [hn]
    · cases hl : alookup pm k with
      | none => rfl
      | some pvm =>
          cases v <;> try rfl
          next vs => exact absurd rfl (hv vs)

/-- The same skip property at any position in the attributes list. -/
lemma encodeAttrs_append_skip (pm : PrimeMap) (k : String) (v : Json)
    (hskip : k = "brand" ∨ alookup pm k = none ∨ ∀ vs, v ≠ Json.arr vs)
    (post : List (String × Json)) :
    ∀ (pre : List (String × Json)) (sfi : Nat),
      encodeAttrs pm sfi (pre ++ (k, v) :: post) = encodeAttrs pm sfi (pre ++ post) := by
  intro pre
  induction pre with
  | nil => intro sfi; exact encodeAttrs_cons_skip pm k v hskip sfi post
  | cons hd pre ih =>
      intro sfi
      obtain ⟨k2, v2⟩ := hd
      simp only [List.cons_append, encodeAttrs]
      split
      · exact ih sfi
      · split
        · exact ih sfi
        · split
          · split
            · exact ih _
            · rfl
          all_goals exact ih sfi

/-- The loop body on a well-formed item reduces to the encoding of its
attributes: `keep` on success, `drop` (no store) on overflow. -/
lemma itemOutcome_mkItem (pm : PrimeMap) (i : String) (attrs : List (String × Json)) :
    itemOutcome pm (mkItem i attrs) =
      match encodeAttrs pm 1 attrs with
      | Except.ok sfi => ItemOutcome.keep ⟨i, sfi⟩
      | Except.error _ => ItemOutcome.drop := rfl

/-- Unfolding equation for `parsePrimeEntries` at an unsigned number. -/
lemma parsePrimeEntries_cons_numU (vk : String) (q : Nat) (rest : List (String × Json)) :
    parsePrimeEntries ((vk, Json.numU q) :: rest) =
      if 1 < q then (vk, q) :: parsePrimeEntries rest else parsePrimeEntries rest := rfl

/-- Unfolding equation for `parsePrimeAttrs` at an object value. -/
lemma parsePrimeAttrs_cons_obj (ak : String) (vals rest : List (String × Json)) :
    parsePrimeAttrs ((ak, Json.obj vals) :: rest) =
      match parsePrimeEntries vals with
      | [] => parsePrimeAttrs rest
      | pvm => (ak, pvm) :: parsePrimeAttrs rest := rfl

/-- Characterization of the stored prime entries of one attribute: an
entry survives iff its JSON number is unsigned and greater than 1. -/
lemma mem_parsePrimeEntries (v : String) (p : Nat) :
    ∀ (vals : List (String × Json)),
      (v, p) ∈ parsePrimeEntries vals ↔ (v, Json.numU p) ∈ vals ∧ 1 < p := by
  intro vals
  induction vals with
  | nil => simp [parsePrimeEntries]
  | cons kv rest ih =>
      obtain ⟨vk, jv⟩ := kv
      cases jv
      case numU q =>
        rw [parsePrimeEntries_cons_numU]
        by_cases hq : 1 < q
        · rw [if_pos hq]
          constructor
          · intro hmem
            rcases List.mem_cons.mp hmem with heq | hm
            · injection heq with h1 h2
              subst h1; subst h2
              exact ⟨List.mem_cons_self _ _, hq⟩
            · obtain ⟨hm2, hp⟩ := ih.mp hm
              exact ⟨List.mem_cons_of_mem _ hm2, hp⟩
          · rintro ⟨hm, hp⟩
            rcases List.mem_cons.mp hm with heq | hm2
            · injection heq with h1 h2
              injection h2 with h2
              subst h1; subst h2
              exact List.mem_cons_self _ _
            · exact List.mem_cons_of_mem _ (ih.mpr ⟨hm2, hp⟩)
        · rw [if_neg hq]
          constructor
          · intro hmem
            obtain ⟨hm2, hp⟩ := ih.mp hmem
            exact ⟨List.mem_cons_of_mem _ hm2, hp⟩
          · rintro ⟨hm, hp⟩
            rcases List.mem_cons.mp hm with heq | hm2
            · injection heq with h1 h2
              injection h2 with h2
              subst h2
              exact absurd hp hq
            · exact ih.mpr ⟨hm2, hp⟩
      all_goals
        constructor
        · intro hmem
          obtain ⟨hm2, hp⟩ := ih.mp hmem
          exact ⟨List.mem_cons_of_mem _ hm2, hp⟩
        · rintro ⟨hm, hp⟩
          rcases List.mem_cons.mp hm with heq | hm2
          · injection heq with h1 h2
            exact Json.noConfusion h2
          · exact ih.mpr ⟨hm2, hp⟩

/-- Every attribute in the parsed prime dictionary carries the parsed
entries of an object in the source section. -/
lemma mem_parsePrimeAttrs (k : String) (pvm : PrimeValueMap) :
    ∀ (l : List (String × Json)), (k, pvm) ∈ parsePrimeAttrs l →
      ∃ vals, (k, Json.obj vals) ∈ l ∧ pvm = parsePrimeEntries vals := by
  intro l
  induction l with
  | nil => intro h; simp [parsePrimeAttrs] at h
  | cons kv rest ih =>
      intro h
      obtain ⟨ak, jv⟩ := kv
      cases jv
      case obj vals =>
        rw [parsePrimeAttrs_cons_obj] at h
        cases hpe : parsePrimeEntries vals with
        | nil =>
            rw [hpe] at h
            obtain ⟨vals2, hm, hpv⟩ := ih h
            exact ⟨vals2, List.mem_cons_of_mem _ hm, hpv⟩
        | cons hd tl =>
            rw [hpe] at h
            rcases List.mem_cons.mp h with heq2 | hm
            · injection heq2 with h1 h2
              subst h1
              exact ⟨vals, List.mem_cons_self _ _, by rw [h2, hpe]⟩
            · obtain ⟨vals2, hm2, hpv⟩ := ih hm
              exact ⟨vals2, List.mem_cons_of_mem _ hm2, hpv⟩
      all_goals
        obtain ⟨vals2, hm, hpv⟩ := ih h
        exact ⟨vals2, List.mem_cons_of_mem _ hm, hpv⟩

/-! ## Claim theorems -/

/-- C1, counterexample: the claim says an overflowing record is stored
with the sentinel SFI 1.  On the overflowing inventory the load stores
nothing at all for the record (the `goto next_item` jumps past
`push_back`), reports no error, and the attribute encoding did
overflow. -/
theorem C1_counterexample :
    (initializeFromJson pmOvf (some invOvf)).store = [] ∧
    (initializeFromJson pmOvf (some invOvf)).error = none ∧
    encodeAttrs pmOvf 1 attrsOvf = Except.error () :=
  ⟨rfl, rfl, rfl⟩

/-- C1, amended: when a multiplication would exceed `2^64 - 1`,
encoding is aborted; the standalone `encode_sfi` returns the sentinel
1, while `initializeFromJson` stores nothing for the record, so every
stored SFI comes from a non-overflowing item and lies in
`[1, 2^64 - 1]` — no wrapped or garbage value is ever stored, but no
sentinel is stored for an overflowed record either. -/
theorem C1_overflow_handling :
    (∀ (attributes : List (String × List String)) (keys : List String) (dict : PrimeMap)
        (e : Unit), encodeSfiKeys dict attributes 1 keys = Except.error e →
        encode_sfi attributes keys dict = 1) ∧
    (∀ (pm : PrimeMap) (items : List Json) (s : SkuData),
        s ∈ (initializeFromJson pm (some (Json.arr items))).store →
        (1 ≤ s.sfi ∧ s.sfi ≤ UINT64_MAX) ∧
        ∃ item, item ∈ items ∧ itemOutcome pm item = ItemOutcome.keep s) := by
  constructor
  · intro attributes keys dict e h
    unfold encode_sfi
    rw [h]
  · intro pm items s hs
    exact ⟨initializeFromJson_store_bounds pm (some (Json.arr items)) s hs,
           initializeFromJson_store_mem pm items s hs⟩

/-- C1, witness for the amended theorem at concrete inputs. -/
theorem C1_witness :
    encode_sfi attrsSfiOvf ["k"] pmOvf = 1 ∧
    ((1 ≤ SkuData.sfi ⟨"A", 10⟩ ∧ SkuData.sfi ⟨"A", 10⟩ ≤ UINT64_MAX) ∧
      ∃ item, item ∈ invDemoItems ∧ itemOutcome pmDemo item = ItemOutcome.keep ⟨"A", 10⟩) :=
  ⟨C1_overflow_handling.1 attrsSfiOvf ["k"] pmOvf () rfl,
   C1_overflow_handling.2 pmDemo invDemoItems ⟨"A", 10⟩ (by decide)⟩

/-- C2: every row of any filter result over a loaded store originates
from an input item whose outcome was `keep` — never from one whose
encoding overflowed (`drop`); an overflowed record is therefore absent
from `perform_filter q` for every `q`, wildcard included. -/
theorem C2_overflow_containment (pm : PrimeMap) (items : List Json) (q : Nat)
    (r : FilterResult)
    (h : r ∈ perform_filter ((initializeFromJson pm (some (Json.arr items))).store) q) :
    ∃ item, item ∈ items ∧ itemOutcome pm item = ItemOutcome.keep ⟨r.id, r.sfi⟩ ∧
      itemOutcome pm item ≠ ItemOutcome.drop := by
  obtain ⟨s, hs, hr⟩ := mem_perform_filter _ q r h
  obtain ⟨item, hin, hk⟩ := initializeFromJson_store_mem pm items s hs
  subst hr
  exact ⟨item, hin, by rw [hk]; rfl, by rw [hk]; exact fun hcon => ItemOutcome.noConfusion hcon⟩

/-- C2, witness: a concrete result row of a non-wildcard filter over
the demo store, traced back to its non-overflowed source item. -/
theorem C2_witness :
    (⟨"A", 10⟩ : FilterResult) ∈
        perform_filter ((initializeFromJson pmDemo (some (Json.arr invDemoItems))).store) 2 ∧
    ∃ item, item ∈ invDemoItems ∧
      itemOutcome pmDemo item = ItemOutcome.keep ⟨FilterResult.id ⟨"A", 10⟩, FilterResult.sfi ⟨"A", 10⟩⟩ ∧
      itemOutcome pmDemo item ≠ ItemOutcome.drop :=
  ⟨by decide, C2_overflow_containment pmDemo invDemoItems 2 ⟨"A", 10⟩ (by decide)⟩

/-- C3, counterexample: the single-tier `perform_filter` does not
treat query 0 as the wildcard — it returns the empty list while the
wildcard returns the whole store. -/
theorem C3_counterexample :
    perform_filter [⟨"a", 2⟩] 0 = [] ∧
    perform_filter [⟨"a", 2⟩] 1 = [⟨"a", 2⟩] ∧
    perform_filter [⟨"a", 2⟩] 0 ≠ perform_filter [⟨"a", 2⟩] 1 :=
  ⟨rfl, rfl, by decide⟩

/-- C3, amended: query 0 never reaches the per-record modulo in either
variant, but only the two-tier `perform_filter` normalizes it to the
wildcard 1; the single-tier `perform_filter` rejects it and returns an
empty result instead of the full store. -/
theorem C3_zero_query_behavior :
    (∀ store : List SkuData, perform_filter store 0 = []) ∧
    (∀ (store : List SkuData2) (lq : Nat),
        perform_filter2 store 0 lq = perform_filter2 store 1 lq) ∧
    (∀ (store : List SkuData2) (mq : Nat),
        perform_filter2 store mq 0 = perform_filter2 store mq 1) :=
  ⟨fun _ => rfl, fun _ _ => rfl, fun _ _ => rfl⟩

/-- C4: for a query greater than 1, the single-tier filter over a
loaded store returns exactly the projections of the stored records
whose SFI the query divides, in store order (a `filter` then `map`,
with no reordering). -/
theorem C4_divisibility_scan (pm : PrimeMap) (inp : Option Json) (q : Nat) (hq : 1 < q) :
    perform_filter ((initializeFromJson pm inp).store) q =
      ((initializeFromJson pm inp).store.filter fun s => s.sfi % q == 0).map toResult := by
  unfold perform_filter
  rw [if_neg (by omega), if_neg (by omega)]
  congr 1
  apply List.filter_congr
  intro s hs
  have h1 := (initializeFromJson_store_bounds pm inp s hs).1
  have h2 : (s.sfi != 0) = true := by
    simp only [bne_iff_ne, ne_eq]
    omega
  rw [h2, Bool.true_and]

/-- C4, witness at the demo store with query 2. -/
theorem C4_witness :
    1 < 2 ∧
    perform_filter ((initializeFromJson pmDemo (some invDemo)).store) 2 =
      ((initializeFromJson pmDemo (some invDemo)).store.filter
        fun s => s.sfi % 2 == 0).map toResult :=
  ⟨by norm_num, C4_divisibility_scan pmDemo (some invDemo) 2 (by norm_num)⟩

/-- C5: the all-wildcard query returns every record in store order, in
both the single-tier (`perform_filter store 1`) and the two-tier
(`perform_filter2 store 1 1`) engines, for any non-empty store. -/
theorem C5_wildcard_law :
    (∀ store : List SkuData, store ≠ [] → perform_filter store 1 = store.map toResult) ∧
    (∀ store : List SkuData2, store ≠ [] →
        perform_filter2 store 1 1 = store.map SkuData2.sku_id) := by
  constructor
  · intro store h
    rfl
  · intro store h
    have hcongr : perform_filter2 store 1 1 =
        store.filterMap (some ∘ SkuData2.sku_id) := by
      apply List.filterMap_congr
      intro sku hs
      simp
    rw [hcongr, List.filterMap_eq_map]

/-- C5, witness at concrete one-record stores. -/
theorem C5_witness :
    perform_filter [⟨"a", 2⟩] 1 = List.map toResult [⟨"a", 2⟩] ∧
    perform_filter2 [⟨"b", 2, 3⟩] 1 1 = List.map SkuData2.sku_id [⟨"b", 2, 3⟩] :=
  ⟨C5_wildcard_law.1 [⟨"a", 2⟩] (by decide), C5_wildcard_law.2 [⟨"b", 2, 3⟩] (by decide)⟩

/-- C6, counterexample: a mid-scan failure (second record has a
numeric id) raises an error yet leaves the first record in the store —
a strict non-empty proper part of the two input records is
observable. -/
theorem C6_counterexample :
    (initializeFromJson [] (some invBadId)).error = some "Error processing inventory." ∧
    (initializeFromJson [] (some invBadId)).store = [⟨"a", 1⟩] ∧
    (initializeFromJson [] (some invBadId)).store ≠ [] ∧
    invBadIdItems.length = 2 :=
  ⟨rfl, rfl, by decide, rfl⟩

/-- C6, amended: a load that fails before any record is processed
(unparseable input, or a document that is not an array) leaves the
store empty; only a failure in mid-scan (a present but non-string id)
can leave the already-appended records observable. -/
theorem C6_load_failure_store_state :
    (∀ pm : PrimeMap,
        initializeFromJson pm none = ⟨[], some "Failed to parse inventory JSON."⟩) ∧
    (∀ (pm : PrimeMap) (j : Json), (∀ items, j ≠ Json.arr items) →
        (initializeFromJson pm (some j)).store = []) := by
  constructor
  · intro pm
    rfl
  · intro pm j hj
    cases j <;> try rfl
    next items => exact absurd rfl (hj items)

/-- C6, witness: a parse failure and a non-array document both leave
the store empty. -/
theorem C6_witness :
    initializeFromJson [] none = ⟨[], some "Failed to parse inventory JSON."⟩ ∧
    (initializeFromJson [] (some Json.null)).store = [] :=
  ⟨C6_load_failure_store_state.1 [],
   C6_load_failure_store_state.2 [] Json.null (fun _ h => Json.noConfusion h)⟩

/-- C7, counterexample: the claim says a single-string attribute value
is treated as a one-element sequence.  In the load, a single string is
ignored (only arrays are scanned): the record with `k: "v"` keeps
SFI 1 while the record with `k: ["v"]` gets SFI 2. -/
theorem C7_counterexample :
    itemOutcome pmSingle itemStr = ItemOutcome.keep ⟨"A", 1⟩ ∧
    itemOutcome pmSingle itemArr = ItemOutcome.keep ⟨"A", 2⟩ ∧
    itemOutcome pmSingle itemStr ≠ itemOutcome pmSingle itemArr :=
  ⟨rfl, rfl, by decide⟩

/-- C7, amended: a single-string attribute value contributes nothing:
the record is processed exactly as if the attribute were absent, not
as if it were the one-element array. -/
theorem C7_single_string_ignored (pm : PrimeMap) (i : String) (k s : String)
    (pre post : List (String × Json)) :
    itemOutcome pm (mkItem i (pre ++ (k, Json.str s) :: post)) =
      itemOutcome pm (mkItem i (pre ++ post)) := by
  rw [itemOutcome_mkItem, itemOutcome_mkItem,
    encodeAttrs_append_skip pm k (Json.str s)
      (Or.inr (Or.inr fun vs h => Json.noConfusion h)) post pre 1]

/-- C8: loading the prime dictionary fails when the required
`attribute_to_prime` section is missing; with the section present as
an object the load succeeds with the parsed dictionary; an individual
entry is stored iff its number is unsigned and greater than 1 (bad
entries are dropped, the rest continue); hence every prime in a
successfully loaded dictionary exceeds 1. -/
theorem C8_prime_dictionary_load :
    (∀ j : Json, (∀ fields, j = Json.obj fields → alookup fields "attribute_to_prime" = none) →
        ∃ e, initializePrimesFromJson (some j) = Except.error e) ∧
    (∀ fields attrs, alookup fields "attribute_to_prime" = some (Json.obj attrs) →
        initializePrimesFromJson (some (Json.obj fields)) = Except.ok (parsePrimeAttrs attrs)) ∧
    (∀ (vals : List (String × Json)) (v : String) (p : Nat),
        (v, p) ∈ parsePrimeEntries vals ↔ (v, Json.numU p) ∈ vals ∧ 1 < p) ∧
    (∀ (j : Json) (pm : PrimeMap), initializePrimesFromJson (some j) = Except.ok pm →
        ∀ k pvm, (k, pvm) ∈ pm → ∀ v p, (v, p) ∈ pvm → 1 < p) := by
  refine ⟨?_, ?_, ?_, ?_⟩
  · intro j hj
    cases j
    case obj fields =>
      have hnone := hj fields rfl
      exact ⟨"Invalid primes JSON format: missing attribute_to_prime section.",
        by simp [initializePrimesFromJson, hnone]⟩
    all_goals exact ⟨_, rfl⟩
  · intro fields attrs h
    simp [initializePrimesFromJson, h]
  · intro vals v p
    exact mem_parsePrimeEntries v p vals
  · intro j pm hok k pvm hk v p hv
    cases j
    case obj fields =>
      simp only [initializePrimesFromJson] at hok
      split at hok
      · injection hok with hok
        subst hok
        obtain ⟨vals, hmem, hpv⟩ := mem_parsePrimeAttrs k pvm _ hk
        rw [hpv] at hv
        exact ((mem_parsePrimeEntries v p vals).mp hv).2
      all_goals first
        | exact Except.noConfusion hok
        | (injection hok with hok; subst hok; simp at hk)
    all_goals exact Except.noConfusion hok

/-- C8, witness: the four parts at concrete documents — a document
with no `attribute_to_prime` section errors; the mixed demo document
loads; `red` is kept; the loaded demo dictionary only holds primes
greater than 1, e.g. at `color`/`red`. -/
theorem C8_witness :
    (∃ e, initializePrimesFromJson (some (Json.obj [])) = Except.error e) ∧
    initializePrimesFromJson (some (Json.obj primesFields)) =
      Except.ok (parsePrimeAttrs primesAttrs) ∧
    (("red", 2) ∈ parsePrimeEntries primesColorVals) ∧
    1 < 2 :=
  ⟨C8_prime_dictionary_load.1 (Json.obj [])
      (fun fields h => by injection h with h2; subst h2; rfl),
   C8_prime_dictionary_load.2.1 primesFields primesAttrs rfl,
   (C8_prime_dictionary_load.2.2.1 primesColorVals "red" 2).mpr
     ⟨by exact List.mem_cons_self _ _, by norm_num⟩,
   C8_prime_dictionary_load.2.2.2 primesDoc [("color", [("red", 2), ("blue", 3)])] rfl
     "color" [("red", 2), ("blue", 3)] (by decide) "red" 2 (by decide)⟩

/-- C9: the `brand` partition key never contributes a factor: a record
with a `brand` attribute (of any value, wherever it appears) is
processed by the load exactly like the same record without it, for
every prime dictionary — including ones with `brand` entries. -/
theorem C9_brand_excluded (pm : PrimeMap) (i : String) (v : Json)
    (pre post : List (String × Json)) :
    itemOutcome pm (mkItem i (pre ++ ("brand", v) :: post)) =
      itemOutcome pm (mkItem i (pre ++ post)) := by
  rw [itemOutcome_mkItem, itemOutcome_mkItem,
    encodeAttrs_append_skip pm "brand" v (Or.inl rfl) post pre 1]

/-- C10: every record stored by a load has SFI at least 1, so the
`item.sfi != 0` guard in the scan never excludes a stored record: the
guarded filter coincides with the guard-free one on every loaded
store, for every query. -/
theorem C10_store_sfi_positive (pm : PrimeMap) (inp : Option Json) :
    (∀ s ∈ (initializeFromJson pm inp).store, 1 ≤ s.sfi) ∧
    (∀ q, perform_filter ((initializeFromJson pm inp).store) q =
        perform_filter_unguarded ((initializeFromJson pm inp).store) q) := by
  constructor
  · intro s hs
    exact (initializeFromJson_store_bounds pm inp s hs).1
  · intro q
    unfold perform_filter perform_filter_unguarded
    by_cases h0 : q = 0
    · rw [if_pos h0, if_pos h0]
    · rw [if_neg h0, if_neg h0]
      by_cases h1 : q = 1
      · rw [if_pos h1, if_pos h1]
      · rw [if_neg h1, if_neg h1]
        congr 1
        apply List.filter_congr
        intro s hs
        have hb := (initializeFromJson_store_bounds pm inp s hs).1
        have h2 : (s.sfi != 0) = true := by
          simp only [bne_iff_ne, ne_eq]
          omega
        rw [h2, Bool.true_and]

/-- C10, witness at the demo store: the stored record `A` has a
positive SFI, and the guarded and unguarded scans agree at query 2. -/
theorem C10_witness :
    1 ≤ SkuData.sfi ⟨"A", 10⟩ ∧
    perform_filter ((initializeFromJson pmDemo (some invDemo)).store) 2 =
      perform_filter_unguarded ((initializeFromJson pmDemo (some invDemo)).store) 2 :=
  ⟨(C10_store_sfi_positive pmDemo (some invDemo)).1 ⟨"A", 10⟩ (by decide),
   (C10_store_sfi_positive pmDemo (some invDemo)).2 2⟩

end PrimeRetail
